import Mathlib

/-!
Verification of the fireplan_alarm_divera event-processing pipeline.

Rust strings are embedded as `List Char` (character sequences).  All index
arithmetic in the Rust sources is of the form "slice from/to the result of
`find` plus a literal marker length", which is invariant under the choice of
byte vs. character indexing for well-formed UTF-8, so character indices are a
faithful model.  Machine integers that matter here (ports, ids, timestamps)
are modelled as `Nat`/`Int`; none of the embedded code paths overflow.
-/

/-- Rust `char::is_whitespace` restricted to the whitespace characters that
`str::trim` / `split_whitespace` can meet in the embedded code paths. -/
def isWsp (c : Char) : Bool :=
  c = ' ' || c = '\t' || c = '\n' || c = '\r'

/-- Rust `str::trim`: drop whitespace from both ends. -/
def trim (s : List Char) : List Char :=
  ((s.dropWhile isWsp).reverse.dropWhile isWsp).reverse

/-- `leadsWith p s` holds when `p` is an initial segment of `s`
(Rust `str::starts_with`). -/
def leadsWith : List Char → List Char → Bool
  | [], _ => true
  | _ :: _, [] => false
  | a :: p, b :: s => decide (a = b) && leadsWith p s

/-- Rust `str::find(pat)`: index of the first occurrence of `pat`, if any. -/
def findSub (hay pat : List Char) : Option Nat :=
  if leadsWith pat hay then some 0
  else
    match hay with
    | [] => none
    | _ :: t => (findSub t pat).map (· + 1)

/-- Rust `str::contains(pat)`. -/
def containsSub (hay pat : List Char) : Bool :=
  (findSub hay pat).isSome

/-- `occursAt hay pat k`: an occurrence of `pat` starts at index `k` of `hay`. -/
abbrev occursAt (hay pat : List Char) (k : Nat) : Prop :=
  leadsWith pat (hay.drop k) = true

/-- Split on a separator character, keeping empty pieces
(Rust `str::split(sep)`; the splitter yields `[""]` on the empty string). -/
def splitPred (p : Char → Bool) : List Char → List (List Char)
  | [] => [[]]
  | c :: t =>
    match splitPred p t, p c with
    | r, true => [] :: r
    | [], false => [[c]]
    | h :: rs, false => (c :: h) :: rs

/-- Rust `str::split(sep)` for a single separator character. -/
def splitChar (sep : Char) (s : List Char) : List (List Char) :=
  splitPred (fun c => decide (c = sep)) s

/-- Rust `str::split_whitespace`: maximal whitespace-free words. -/
def splitWsp (s : List Char) : List (List Char) :=
  (splitPred isWsp s).filter (fun t => !t.isEmpty)

/-- Rust `str::lines` on a string without `'\r'`: split on `'\n'`, a trailing
newline producing no final empty line. -/
def rustLines (s : List Char) : List (List Char) :=
  if s = [] then []
  else
    let p := splitChar '\n' s
    if s.getLast? = some '\n' then p.dropLast else p

/-- Rust `format!("{:0>7}", s)`: left-pad with `'0'` to width 7. -/
def padLeft7 (s : List Char) : List Char :=
  if s.length < 7 then List.replicate (7 - s.length) '0' ++ s else s

/-- A string field has no leading and no trailing whitespace. -/
def noEdgeWsp (s : List Char) : Bool :=
  (match s.head? with
   | none => true
   | some c => !isWsp c) &&
  (match s.reverse.head? with
   | none => true
   | some c => !isWsp c)

/-- `main.rs` `Ric`: a notification target (display text, target code,
sub-channel). -/
structure Ric where
  text : List Char
  ric : List Char
  subric : List Char
deriving DecidableEq

/-- A compiled field-extraction pattern.  The Rust code stores each pattern as
a string and runs `Regex::new` plus `captures`/`caps[1]` on every line; we
abstract a configured pattern as either a compiled matcher — a function from a
line to the optional first capture group — or `none`, modelling a pattern
string that `Regex::new` rejects. -/
structure Pattern where
  compiled : Option (List Char → Option (List Char))

/-- `main.rs` `Configuration` (regex fields abstracted as `Pattern`). -/
structure Configuration where
  fireplan_api_key : List Char
  regex_einsatzstichwort : Pattern
  regex_strasse : Pattern
  regex_ort : Pattern
  regex_hausnummer : Pattern
  regex_ortsteil : Pattern
  regex_einsatznrleitstelle : Pattern
  regex_koordinaten : Pattern
  regex_zusatzinfo : Pattern
  regex_objektname : Pattern
  simple_trigger : Option (List Char)
  rics : List Ric
  http_port : Nat
  http_host : List Char

/-- Modelled from the spec: the `SubmitPayload` struct (the spec's
`RawSubmission`) is referenced by `parser.rs` and `web_server.rs` but its
declaration is not among the provided sources; its fields follow spec section 6
(`id` int, `foreign_id` string, `title` string, `text` string, `address`
string, `lat` string, `lng` string, `priority` int, `cluster`/`group`/`vehicle`
string lists, `ts_create`/`ts_update` int). -/
structure SubmitPayload where
  id : Int
  foreign_id : List Char
  title : List Char
  text : List Char
  address : List Char
  lat : List Char
  lng : List Char
  priority : Int
  cluster : List (List Char)
  group : List (List Char)
  vehicle : List (List Char)
  ts_create : Int
  ts_update : Int
deriving DecidableEq

/-- `main.rs` `ParsedData`: the normalized incident record. -/
structure ParsedData where
  rics : List Ric
  einsatznrlst : List Char
  strasse : List Char
  hausnummer : List Char
  ort : List Char
  ortsteil : List Char
  objektname : List Char
  koordinaten : List Char
  einsatzstichwort : List Char
  zusatzinfo : List Char
deriving DecidableEq

/-- One regex application in the per-line scan of `parser.rs` lines 30-58:
a valid pattern overwrites the field with the first capture group on a match
and keeps the current value otherwise; a malformed pattern only logs and keeps
the current value. -/
def applyPat (p : Pattern) (acc line : List Char) : List Char :=
  match p.compiled with
  | some m => (m line).getD acc
  | none => acc

/-- One iteration of the `for line in body.lines()` loop of `parser.rs`
lines 26-59, updating the (ort, ortsteil, objektname) triple. -/
def scanStep (configuration : Configuration)
    (acc : List Char × List Char × List Char) (line : List Char) :
    List Char × List Char × List Char :=
  (applyPat configuration.regex_ort acc.1 line,
   applyPat configuration.regex_ortsteil acc.2.1 line,
   applyPat configuration.regex_objektname acc.2.2 line)

/-- The whole per-line field scan of `parser.rs` lines 26-59, starting from
the empty fields initialized at lines 10-21. -/
def scanFields (configuration : Configuration) (ls : List (List Char)) :
    List Char × List Char × List Char :=
  ls.foldl (scanStep configuration) ([], [], [])

def EINSATZMITTEL : List Char := "Einsatzmittel:".toList

def MELDUNG : List Char := "Meldung:".toList

def SCHLAGWORT : List Char := "Schlagwort".toList

/-- `parser.rs` lines 69-73. -/
def abt1_dummy_ric : Ric :=
  ⟨"Dummy Abt 1".toList, "0999991".toList, "B".toList⟩

/-- `parser.rs` lines 75-79. -/
def abt2_dummy_ric : Ric :=
  ⟨"Dummy Abt 2".toList, "0999992".toList, "B".toList⟩

/-- `parser.rs` lines 81-85. -/
def abt3_dummy_ric : Ric :=
  ⟨"Dummy Abt 3".toList, "0999993".toList, "B".toList⟩

/-- `parser.rs` lines 87-91. -/
def abt4_dummy_ric : Ric :=
  ⟨"Dummy Abt 4".toList, "0999994".toList, "B".toList⟩

/-- `parser.rs` lines 115-119: the always-appended command-vehicle target. -/
def kdow_dummy_ric : Ric :=
  ⟨"Dummy KdoW".toList, "0999995".toList, "B".toList⟩

/-- `parser.rs` lines 101-105: the target appended for a matched rule, with
the code zero-padded to 7 digits. -/
def matchedRic (ric : Ric) : Ric :=
  ⟨ric.text, padLeft7 ric.ric, ric.subric⟩

/-- `parser.rs` lines 93-112, inner loop for one comma-separated token: fold
the rule table; a rule whose display text occurs in the token first removes
every previously found entry whose text is contained in the new rule's text,
then appends its own (zero-padded) target. -/
def matchToken (rules : List Ric) (token : List Char) : List Ric :=
  rules.foldl
    (fun temp ric =>
      if containsSub token ric.text then
        (temp.filter (fun x => !containsSub ric.text x.text)) ++ [matchedRic ric]
      else temp)
    []

/-- `parser.rs` lines 124-148, one token of the second pass: append each
`UW n/` group fallback at most once. -/
def uwStep (acc : List Ric) (token : List Char) : List Ric :=
  let a1 := if containsSub token "UW 1/".toList ∧ abt1_dummy_ric ∉ acc
            then acc ++ [abt1_dummy_ric] else acc
  let a2 := if containsSub token "UW 2/".toList ∧ abt2_dummy_ric ∉ a1
            then a1 ++ [abt2_dummy_ric] else a1
  let a3 := if containsSub token "UW 3/".toList ∧ abt3_dummy_ric ∉ a2
            then a2 ++ [abt3_dummy_ric] else a2
  let a4 := if containsSub token "UW 4/".toList ∧ abt4_dummy_ric ∉ a3
            then a3 ++ [abt4_dummy_ric] else a3
  a4

/-- `parser.rs` lines 174-187: the free-text note between the first
`"Meldung:"` and the next `"Schlagwort"` of the original (un-normalized)
text, trimmed; empty when either marker is missing. -/
def zusatzOf (text : List Char) : List Char :=
  match findSub text MELDUNG with
  | some start =>
    let after := start + MELDUNG.length
    match findSub (text.drop after) SCHLAGWORT with
    | some rel => trim ((text.drop after).take rel)
    | none => []
  | none => []

/-- The record built by `parser.rs` `parse` (its single `Ok(result)` value). -/
def parseRecord (data : SubmitPayload) (configuration : Configuration) :
    ParsedData :=
  let body := data.text.filter (fun c => !decide (c = '\r'))
  let scanned := scanFields configuration (rustLines body)
  let rics_source :=
    match findSub body EINSATZMITTEL with
    | some start => body.drop (start + EINSATZMITTEL.length)
    | none => []
  let tokens := splitChar ',' rics_source
  let matched := tokens.foldl
    (fun acc token => acc ++ matchToken configuration.rics token) []
  let ricsFinal := tokens.foldl uwStep (matched ++ [kdow_dummy_ric])
  let firstChunk := (splitChar ',' data.address).headD []
  { rics := ricsFinal
    einsatznrlst := data.foreign_id
    strasse := (splitWsp firstChunk).headD []
    hausnummer := (splitWsp firstChunk).getD 1 []
    ort := trim scanned.1
    ortsteil := trim scanned.2.1
    objektname := trim scanned.2.2
    koordinaten := trim data.lat ++ ',' :: trim data.lng
    einsatzstichwort := trim data.title
    zusatzinfo := zusatzOf data.text }

/-- `parser.rs` `parse`: builds the record and always returns `Ok`. -/
def parse (data : SubmitPayload) (configuration : Configuration) :
    Except (List Char) ParsedData :=
  Except.ok (parseRecord data configuration)

/-- The non-fatal warnings emitted by `parser.rs` lines 189-212 for empty
required fields (the keyword check appears twice in the source). -/
def parseWarnings (r : ParsedData) : List (List Char) :=
  (if r.einsatzstichwort = [] then ["Parser: No EINSATZSTICHWORT found".toList] else []) ++
  (if r.ortsteil = [] then ["Parser: No ORTSTEIL found".toList] else []) ++
  (if r.objektname = [] then ["Parser: No OBJEKTNAME found".toList] else []) ++
  (if r.ort = [] then ["Parser: No ORT found".toList] else []) ++
  (if r.einsatznrlst = [] then ["Parser: No EINSATZNUMMERLEITSTELLE found".toList] else []) ++
  (if r.einsatzstichwort = [] then ["Parser: No EINSATZSTICHWORT found".toList] else []) ++
  (if r.strasse = [] then ["Parser: No STRASSE found".toList] else []) ++
  (if r.hausnummer = [] then ["Parser: No HAUSNUMMER found".toList] else [])

/-- A dedup key of `main.rs` line 307: (incident foreign id, target code). -/
abbrev DedupKey := List Char × List Char

/-- One iteration of the `for ric in &data.rics` loop of `main.rs`
lines 313-318: register the key and keep the target only when the key was
absent. -/
def dedupStep (nr : List Char) (st : List DedupKey × List Ric) (ric : Ric) :
    List DedupKey × List Ric :=
  if (nr, ric.ric) ∈ st.1 then st
  else ((nr, ric.ric) :: st.1, st.2 ++ [ric])

/-- One iteration of the dedup loop body of `main.rs` lines 311-332 on a
received record: returns the grown key set, the submission handed to
`fireplan::submit` (with `rics` replaced by the not-yet-known targets), or
`none` together with a `true` warning flag when every target was already
registered. -/
def processRecord (known : List DedupKey) (data : ParsedData) :
    List DedupKey × Option ParsedData × Bool :=
  let p := data.rics.foldl (dedupStep data.einsatznrlst) (known, [])
  if p.2 = [] then (p.1, none, true)
  else (p.1, some { data with rics := p.2 }, false)

/-- The dedup loop of `main.rs` lines 309-338 run over a sequence of received
records, collecting per-record (submission, warned) outcomes. -/
def processAll (known : List DedupKey) :
    List ParsedData → List DedupKey × List (Option ParsedData × Bool)
  | [] => (known, [])
  | d :: rest =>
    let st := processRecord known d
    let r := processAll st.1 rest
    (r.1, (st.2.1, st.2.2) :: r.2)

/-- Whether a dedup-loop outcome hands the Submitter a submission containing
target code `t` under incident foreign id `i`. -/
def hasKey (i t : List Char) (o : Option ParsedData × Bool) : Bool :=
  match o.1 with
  | some d => decide (d.einsatznrlst = i) && d.rics.any (fun r => decide (r.ric = t))
  | none => false

/-- `fireplan.rs` line 35: the token cache, one (token, stored-at) entry per
site, modelled as an association list whose most recent insertion shadows
older entries (the `HashMap` overwrite). Instants are seconds as `Nat`. -/
abbrev TokenCache := List (List Char × List Char × Nat)

/-- `HashMap::get` on the modelled cache. -/
def cacheLookup (cache : TokenCache) (standort : List Char) :
    Option (List Char × Nat) :=
  (cache.find? (fun e => decide (e.1 = standort))).map (fun e => e.2)

/-- `fireplan.rs` line 36: `TOKEN_TTL`, 30 minutes in seconds. -/
def TOKEN_TTL : Nat := 30 * 60

/-- `fireplan.rs` lines 49-99, the fetch path of `get_api_token`: `fetched`
abstracts the network GET plus JSON parse of the `utoken` field (`some` =
success); on success the token is stored with the current instant, on any
failure nothing is stored and `none` is returned. -/
def fetchStore (cache : TokenCache) (now : Nat) (standort : List Char)
    (fetched : Option (List Char)) : Option (List Char) × TokenCache :=
  match fetched with
  | none => (none, cache)
  | some t => (some t, (standort, t, now) :: cache)

/-- `fireplan.rs` lines 38-100 `get_api_token`: return the cached token when
its age is under `TOKEN_TTL`, otherwise fall through to the fetch path. -/
def get_api_token (cache : TokenCache) (now : Nat) (standort : List Char)
    (fetched : Option (List Char)) : Option (List Char) × TokenCache :=
  match cacheLookup cache standort with
  | some (tok, ts) =>
    if now - ts < TOKEN_TTL then (some tok, cache)
    else fetchStore cache now standort fetched
  | none => fetchStore cache now standort fetched

/-- The example payload embedded in the 400 response of `web_server.rs`
lines 228-242 (its literal field values). -/
structure ExampleFields where
  id : Int
  number : List Char
  title : List Char
  text : List Char
  address : List Char
  lat : List Char
  lng : List Char
  priority : Int
  cluster : List (List Char)
  group : List (List Char)
  vehicle : List (List Char)
  ts_create : Int
  ts_update : Int
deriving DecidableEq

/-- The concrete example payload of `web_server.rs` lines 228-242. -/
def submitExample : ExampleFields :=
  ⟨247, "E-123".toList, "FEUER3".toList,
   "Unklare Rauchentwicklung im Hafen".toList,
   "Hauptstraße 247, 12345 Musterstadt".toList,
   "1.23456".toList, "12.34567".toList, 1,
   ["Untereinheit 1".toList],
   ["Gruppe 1".toList, "Gruppe 2".toList],
   ["HLF-1".toList, "LF-10".toList],
   1769601252, 1769601252⟩

/-- Body of a `/submit` response, by branch of `web_server.rs` lines 202-249:
401 `Unauthorized` error, 200 `submitted` status, or the 400 body carrying the
JSON parse error message and the example payload. -/
inductive RespBody where
  | errorUnauthorized : RespBody
  | statusSubmitted : RespBody
  | parseError (msg : List Char) (sample : ExampleFields) : RespBody
deriving DecidableEq

/-- An HTTP response of the `/submit` handler: status code plus body. -/
structure SubmitResp where
  status : Nat
  body : RespBody
deriving DecidableEq

/-- `web_server.rs` lines 202-249, the `/submit` handler: compare the
caller-supplied query token against the configured secret before anything
else; only in the authorized branch run `fromSlice` (abstracting
`serde_json::from_slice::<SubmitPayload>`) on the raw body. -/
def webSubmit (authToken queryToken : List Char) (body : List Char)
    (fromSlice : List Char → Except (List Char) SubmitPayload) : SubmitResp :=
  if ¬ queryToken = authToken then ⟨401, RespBody.errorUnauthorized⟩
  else
    match fromSlice body with
    | Except.ok _ => ⟨200, RespBody.statusSubmitted⟩
    | Except.error e =>
      ⟨400, RespBody.parseError ("JSON parse error: ".toList ++ e) submitExample⟩

/-- A pattern whose string `Regex::new` rejects. -/
def noPat : Pattern := ⟨none⟩

/-- A test configuration with the given rule table and no usable patterns. -/
def testCfg (rules : List Ric) : Configuration :=
  ⟨[], noPat, noPat, noPat, noPat, noPat, noPat, noPat, noPat, noPat,
   none, rules, 0, []⟩

/-- A raw submission with every field empty. -/
def emptyPayload : SubmitPayload :=
  ⟨0, [], [], [], [], [], [], 0, [], [], [], 0, 0⟩

def c1Data : SubmitPayload :=
  { emptyPayload with text := "Einsatzmittel: Florian X 1".toList }

/-- Rule table listing the containing display text before the contained one. -/
def c1Cfg : Configuration :=
  testCfg [⟨"Florian X 1".toList, "1".toList, "A".toList⟩,
           ⟨"Florian X".toList, "2".toList, "A".toList⟩]

def w2Data : ParsedData :=
  ⟨[kdow_dummy_ric], "E1".toList, [], [], [], [], [], [], [], []⟩

def c5Data : SubmitPayload :=
  { emptyPayload with foreign_id := " 4711 ".toList }

def c6Data : SubmitPayload :=
  { emptyPayload with
    text := "Alarm Einsatzmittel: UW 1/1, Florian Musterstadt 1".toList }

def c6Cfg : Configuration :=
  testCfg [⟨"Florian Musterstadt 1".toList, "123".toList, "A".toList⟩]

/-- Test matcher capturing the remainder of a line marked `O:`. -/
def m7ort : List Char → Option (List Char) :=
  fun l => if leadsWith "O:".toList l then some (l.drop 2) else none

/-- Test matcher capturing the remainder of a line marked `T:`. -/
def m7ortsteil : List Char → Option (List Char) :=
  fun l => if leadsWith "T:".toList l then some (l.drop 2) else none

/-- Test matcher capturing the remainder of a line marked `N:`. -/
def m7objektname : List Char → Option (List Char) :=
  fun l => if leadsWith "N:".toList l then some (l.drop 2) else none

def c7Cfg : Configuration :=
  { testCfg [] with
    regex_ort := ⟨some m7ort⟩
    regex_ortsteil := ⟨some m7ortsteil⟩
    regex_objektname := ⟨some m7objektname⟩ }

def c8Data : SubmitPayload :=
  { emptyPayload with
    text := "AB Meldung: Feuer im Keller Schlagwort: F2".toList }

/-- Text that does not contain `"Einsatzmittel:"`, though its
carriage-return-stripped body does. -/
def c10Data : SubmitPayload :=
  { emptyPayload with text := "Einsatz\rmittel: UW 1/1".toList }

def w10Data : SubmitPayload :=
  { emptyPayload with text := "keine Mittel".toList }

def w10Cfg : Configuration :=
  testCfg [⟨"Florian".toList, "7".toList, "A".toList⟩]

/-- Test stand-in for `serde_json::from_slice`: accepts exactly one body. -/
def f4 : List Char → Except (List Char) SubmitPayload :=
  fun b => if b = "good".toList then Except.ok emptyPayload
           else Except.error "bad".toList

/-- Refined model of one application of a compiled field pattern to one line,
keeping the failure path that `Pattern` and `applyPat` abstract away.  In the
source (`parser.rs` lines 31-32) `re.captures(line)` either misses or returns
a capture table, and the code indexes `caps[1]` unconditionally; when the
regex is well-formed but defines no capture group 1 (for example the pattern
string `"Ort"`) that index panics on a match and no record is ever returned.
A matcher here yields `none` for no match, `some (some c)` for a match whose
group 1 captured `c`, and `some none` for a match without group 1; the `none`
result of `applyCaps` models the abort. -/
def applyCaps (m : List Char → Option (Option (List Char)))
    (acc line : List Char) : Option (List Char) :=
  match m line with
  | none => some acc
  | some (some c) => some c
  | some none => none

/-- The well-formed groupless pattern string `"Ort"`: it matches every line
containing `"Ort"` and never defines capture group 1. -/
def ortNoGroupMatcher : List Char → Option (Option (List Char)) :=
  fun line => if containsSub line "Ort".toList then some none else none

/-- `leadsWith` means "is an initial segment of". -/
theorem leadsWith_iff_append : ∀ (p s : List Char),
    leadsWith p s = true ↔ ∃ t, s = p ++ t
  | [], s => by simp [leadsWith]
  | _ :: _, [] => by simp [leadsWith]
  | a :: p, b :: s => by
    simp only [leadsWith, Bool.and_eq_true, decide_eq_true_eq,
      List.cons_append, List.cons.injEq]
    constructor
    · rintro ⟨hab, h⟩
      obtain ⟨t, ht⟩ := (leadsWith_iff_append p s).mp h
      exact ⟨t, hab.symm, ht⟩
    · rintro ⟨t, hb, hs⟩
      exact ⟨hb.symm, (leadsWith_iff_append p s).mpr ⟨t, hs⟩⟩

/-- `findSub` on the empty haystack, by unfolding. -/
theorem findSub_nil (pat : List Char) :
    findSub [] pat = if leadsWith pat [] then some 0 else none := rfl

/-- `findSub` on a cons haystack, by unfolding. -/
theorem findSub_cons (c : Char) (t pat : List Char) :
    findSub (c :: t) pat =
      if leadsWith pat (c :: t) then some 0
      else (findSub t pat).map (· + 1) := rfl

/-- `findSub` returns a position where the pattern occurs, and the least one. -/
theorem findSub_some : ∀ (hay pat : List Char) (i : Nat),
    findSub hay pat = some i →
    occursAt hay pat i ∧ ∀ k, k < i → ¬ occursAt hay pat k := by
  intro hay
  induction hay with
  | nil =>
    intro pat i h
    rw [findSub_nil] at h
    by_cases hl : leadsWith pat [] = true
    · rw [if_pos hl] at h
      cases h
      exact ⟨hl, fun k hk => absurd hk (Nat.not_lt_zero k)⟩
    · rw [if_neg hl] at h
      cases h
  | cons c t ih =>
    intro pat i h
    rw [findSub_cons] at h
    by_cases hl : leadsWith pat (c :: t) = true
    · rw [if_pos hl] at h
      cases h
      exact ⟨by simpa [occursAt] using hl,
        fun k hk => absurd hk (Nat.not_lt_zero k)⟩
    · rw [if_neg hl] at h
      cases hft : findSub t pat with
      | none => rw [hft] at h; cases h
      | some j =>
        rw [hft] at h
        simp only [Option.map_some', Option.some.injEq] at h
        subst h
        obtain ⟨hocc, hmin⟩ := ih pat j hft
        refine ⟨by simpa [occursAt, List.drop_succ_cons] using hocc, ?_⟩
        intro k hk
        match k with
        | 0 => simpa [occursAt] using hl
        | k + 1 =>
          have hkj : k < j := Nat.lt_of_succ_lt_succ hk
          simpa [occursAt, List.drop_succ_cons] using hmin k hkj

/-- When `findSub` fails, the pattern occurs nowhere. -/
theorem findSub_none : ∀ (hay pat : List Char),
    findSub hay pat = none → ∀ k, ¬ occursAt hay pat k := by
  intro hay
  induction hay with
  | nil =>
    intro pat h k
    rw [findSub_nil] at h
    by_cases hl : leadsWith pat [] = true
    · rw [if_pos hl] at h; cases h
    · intro hocc
      exact hl (by simpa [occursAt, List.drop_nil] using hocc)
  | cons c t ih =>
    intro pat h k
    rw [findSub_cons] at h
    by_cases hl : leadsWith pat (c :: t) = true
    · rw [if_pos hl] at h; cases h
    · rw [if_neg hl] at h
      cases hft : findSub t pat with
      | some j => rw [hft] at h; cases h
      | none =>
        match k with
        | 0 => simpa [occursAt] using hl
        | k + 1 =>
          intro hocc
          exact ih pat hft k
            (by simpa [occursAt, List.drop_succ_cons] using hocc)

/-- The first occurrence position determines the result of `findSub`. -/
theorem findSub_eq_some_of (hay pat : List Char) (i : Nat)
    (h1 : occursAt hay pat i) (h2 : ∀ k, k < i → ¬ occursAt hay pat k) :
    findSub hay pat = some i := by
  cases hfs : findSub hay pat with
  | none => exact absurd h1 (findSub_none hay pat hfs i)
  | some j =>
    obtain ⟨hj, hmin⟩ := findSub_some hay pat j hfs
    rcases Nat.lt_trichotomy i j with hlt | heq | hgt
    · exact absurd h1 (hmin i hlt)
    · rw [heq]
    · exact absurd hj (h2 j hgt)

/-- Absence of occurrences determines the result of `findSub`. -/
theorem findSub_eq_none_of (hay pat : List Char)
    (h : ∀ k, ¬ occursAt hay pat k) : findSub hay pat = none := by
  cases hfs : findSub hay pat with
  | none => rfl
  | some j => exact absurd (findSub_some hay pat j hfs).1 (h j)

/-- The head surviving a `dropWhile` falsifies the predicate. -/
theorem dropWhile_head?_false (p : Char → Bool) :
    ∀ (l : List Char) (c : Char), (l.dropWhile p).head? = some c → p c = false := by
  intro l
  induction l with
  | nil => intro c h; simp at h
  | cons a t ih =>
    intro c h
    rw [List.dropWhile_cons] at h
    by_cases hp : p a = true
    · exact ih c (by simpa [hp] using h)
    · rw [if_neg hp] at h
      simp only [List.head?_cons, Option.some.injEq] at h
      subst h
      exact Bool.not_eq_true _ ▸ (by simpa using hp)

/-- A nonempty `dropWhile` keeps the last element of the list. -/
theorem dropWhile_getLast? (p : Char → Bool) :
    ∀ (l : List Char), l.dropWhile p ≠ [] →
      (l.dropWhile p).getLast? = l.getLast? := by
  intro l
  induction l with
  | nil => intro h; simp at h
  | cons a t ih =>
    intro h
    rw [List.dropWhile_cons]
    by_cases hp : p a = true
    · rw [List.dropWhile_cons, if_pos hp] at h
      have ht : t ≠ [] := by
        intro he
        exact h (by simp [he])
      obtain ⟨b, t', rfl⟩ := List.exists_cons_of_ne_nil ht
      rw [if_pos hp, ih h, List.getLast?_cons_cons]
    · rw [if_neg hp]

/-- The first character of a trimmed string is not whitespace. -/
theorem trim_head?_not_wsp (s : List Char) (c : Char)
    (h : (trim s).head? = some c) : isWsp c = false := by
  unfold trim at h
  rw [List.head?_reverse] at h
  by_cases hwn : ((s.dropWhile isWsp).reverse.dropWhile isWsp) = []
  · rw [hwn] at h; cases h
  · rw [dropWhile_getLast? isWsp _ hwn, List.getLast?_reverse] at h
    exact dropWhile_head?_false isWsp _ c h

/-- The last character of a trimmed string is not whitespace. -/
theorem trim_revhead?_not_wsp (s : List Char) (c : Char)
    (h : (trim s).reverse.head? = some c) : isWsp c = false := by
  unfold trim at h
  rw [List.reverse_reverse] at h
  exact dropWhile_head?_false isWsp _ c h

/-- Build `noEdgeWsp` from the two edge conditions. -/
theorem noEdgeWsp_of (s : List Char)
    (h1 : ∀ c, s.head? = some c → isWsp c = false)
    (h2 : ∀ c, s.reverse.head? = some c → isWsp c = false) :
    noEdgeWsp s = true := by
  unfold noEdgeWsp
  rw [Bool.and_eq_true]
  constructor
  · cases h : s.head? with
    | none => rfl
    | some c => simp [h1 c h]
  · cases h : s.reverse.head? with
    | none => rfl
    | some c => simp [h2 c h]

/-- A trimmed string has no edge whitespace. -/
theorem noEdgeWsp_trim (s : List Char) : noEdgeWsp (trim s) = true :=
  noEdgeWsp_of _ (trim_head?_not_wsp s) (trim_revhead?_not_wsp s)

/-- The coordinates string `trim lat ++ "," ++ trim lng` has no edge
whitespace. -/
theorem noEdgeWsp_koord (a b : List Char) :
    noEdgeWsp (trim a ++ ',' :: trim b) = true := by
  apply noEdgeWsp_of
  · intro c h
    cases e : trim a with
    | nil =>
      rw [e] at h
      simp only [List.nil_append, List.head?_cons, Option.some.injEq] at h
      subst h; decide
    | cons x xs =>
      rw [e] at h
      simp only [List.cons_append, List.head?_cons, Option.some.injEq] at h
      subst h
      exact trim_head?_not_wsp a _ (by rw [e]; rfl)
  · intro c h
    rw [List.reverse_append, List.reverse_cons] at h
    cases e : (trim b).reverse with
    | nil =>
      rw [e] at h
      simp only [List.nil_append, List.cons_append, List.head?_cons,
        Option.some.injEq] at h
      subst h; decide
    | cons x xs =>
      rw [e] at h
      simp only [List.cons_append, List.head?_cons, Option.some.injEq] at h
      subst h
      exact trim_revhead?_not_wsp b _ (by rw [e]; rfl)

/-- Unfolding lemma for `splitPred` on a cons. -/
theorem splitPred_cons (p : Char → Bool) (c : Char) (t : List Char) :
    splitPred p (c :: t) =
      match splitPred p t, p c with
      | r, true => [] :: r
      | [], false => [[c]]
      | h :: rs, false => (c :: h) :: rs := rfl

/-- `splitPred` never returns the empty list of pieces. -/
theorem splitPred_ne_nil (p : Char → Bool) : ∀ s, splitPred p s ≠ [] := by
  intro s
  induction s with
  | nil => simp [splitPred]
  | cons c t ih =>
    cases hr : splitPred p t with
    | nil => exact absurd hr ih
    | cons h rs =>
      by_cases hp : p c = true
      · simp [splitPred_cons, hr, hp]
      · have hpf : p c = false := by simpa using hp
        simp [splitPred_cons, hr, hpf]

/-- Characters inside a `splitPred` piece falsify the splitting predicate. -/
theorem splitPred_chars (p : Char → Bool) : ∀ s t, t ∈ splitPred p s →
    ∀ c, c ∈ t → p c = false := by
  intro s
  induction s with
  | nil =>
    intro t ht c hc
    simp only [splitPred, List.mem_singleton] at ht
    subst ht
    simp at hc
  | cons a s ih =>
    intro t ht c hc
    by_cases hp : p a = true
    · rw [splitPred_cons] at ht
      simp only [hp] at ht
      rcases List.mem_cons.mp ht with h1 | h2
      · subst h1; simp at hc
      · exact ih t h2 c hc
    · have hpf : p a = false := by simpa using hp
      cases hr : splitPred p s with
      | nil => exact absurd hr (splitPred_ne_nil p s)
      | cons h rs =>
        rw [splitPred_cons] at ht
        simp only [hr, hpf] at ht
        rcases List.mem_cons.mp ht with h1 | h2
        · subst h1
          rcases List.mem_cons.mp hc with rfl | hch
          · exact hpf
          · exact ih h (by rw [hr]; exact List.mem_cons_self h rs) c hch
        · exact ih t (by rw [hr]; exact List.mem_cons_of_mem h h2) c hc

/-- A head element is a member. -/
theorem mem_of_head?_eq (l : List Char) (c : Char) (h : l.head? = some c) :
    c ∈ l := by
  cases l with
  | nil => cases h
  | cons a t =>
    simp only [List.head?_cons, Option.some.injEq] at h
    subst h
    exact List.mem_cons_self a t

/-- A string all of whose characters are non-whitespace has no edge
whitespace. -/
theorem noEdgeWsp_of_no_wsp (t : List Char)
    (h : ∀ c, c ∈ t → isWsp c = false) : noEdgeWsp t = true :=
  noEdgeWsp_of t (fun c hc => h c (mem_of_head?_eq t c hc))
    (fun c hc => h c (List.mem_reverse.mp (mem_of_head?_eq t.reverse c hc)))

/-- Every `split_whitespace` token has no edge whitespace. -/
theorem splitWsp_noEdge (s t : List Char) (h : t ∈ splitWsp s) :
    noEdgeWsp t = true :=
  noEdgeWsp_of_no_wsp t
    (splitPred_chars isWsp s t (List.mem_of_mem_filter h))

/-- The street chunk (first whitespace token or empty) has no edge
whitespace. -/
theorem noEdgeWsp_splitWsp_headD (s : List Char) :
    noEdgeWsp ((splitWsp s).headD []) = true := by
  cases e : splitWsp s with
  | nil => rfl
  | cons a t =>
    have ha : a ∈ splitWsp s := by rw [e]; exact List.mem_cons_self a t
    simpa using splitWsp_noEdge s a ha

/-- The house-number chunk (second whitespace token or empty) has no edge
whitespace. -/
theorem noEdgeWsp_splitWsp_getD1 (s : List Char) :
    noEdgeWsp ((splitWsp s).getD 1 []) = true := by
  by_cases h : 1 < (splitWsp s).length
  · rw [List.getD_eq_getElem _ _ h]
    exact splitWsp_noEdge s _ (List.getElem_mem h)
  · rw [List.getD_eq_default _ _ (Nat.le_of_not_lt h)]
    rfl

/-- The city field of the line scan evolves independently. -/
theorem scanFields_fst (cfg : Configuration) :
    ∀ (ls : List (List Char)) (a b c : List Char),
      (ls.foldl (scanStep cfg) (a, b, c)).1 =
        ls.foldl (fun acc line => applyPat cfg.regex_ort acc line) a := by
  intro ls
  induction ls with
  | nil => intro a b c; rfl
  | cons l t ih =>
    intro a b c
    rw [List.foldl_cons, List.foldl_cons]
    exact ih _ _ _

/-- The district field of the line scan evolves independently. -/
theorem scanFields_snd (cfg : Configuration) :
    ∀ (ls : List (List Char)) (a b c : List Char),
      (ls.foldl (scanStep cfg) (a, b, c)).2.1 =
        ls.foldl (fun acc line => applyPat cfg.regex_ortsteil acc line) b := by
  intro ls
  induction ls with
  | nil => intro a b c; rfl
  | cons l t ih =>
    intro a b c
    rw [List.foldl_cons, List.foldl_cons]
    exact ih _ _ _

/-- The site-name field of the line scan evolves independently. -/
theorem scanFields_thd (cfg : Configuration) :
    ∀ (ls : List (List Char)) (a b c : List Char),
      (ls.foldl (scanStep cfg) (a, b, c)).2.2 =
        ls.foldl (fun acc line => applyPat cfg.regex_objektname acc line) c := by
  intro ls
  induction ls with
  | nil => intro a b c; rfl
  | cons l t ih =>
    intro a b c
    rw [List.foldl_cons, List.foldl_cons]
    exact ih _ _ _

/-- A malformed pattern leaves the scanned field untouched. -/
theorem foldl_applyPat_none_pat (p : Pattern) (hp : p.compiled = none) :
    ∀ (ls : List (List Char)) (init : List Char),
      ls.foldl (fun acc line => applyPat p acc line) init = init := by
  intro ls
  induction ls with
  | nil => intro init; rfl
  | cons a t ih =>
    intro init
    rw [List.foldl_cons]
    have ha : applyPat p init a = init := by simp [applyPat, hp]
    rw [ha]
    exact ih init

/-- A valid pattern matching no line leaves the scanned field untouched. -/
theorem foldl_applyPat_no_match (p : Pattern) (m : List Char → Option (List Char))
    (hp : p.compiled = some m) :
    ∀ (ls : List (List Char)) (init : List Char), (∀ l ∈ ls, m l = none) →
      ls.foldl (fun acc line => applyPat p acc line) init = init := by
  intro ls
  induction ls with
  | nil => intro init _; rfl
  | cons a t ih =>
    intro init h
    rw [List.foldl_cons]
    have ha : applyPat p init a = init := by
      simp [applyPat, hp, h a (List.mem_cons_self a t)]
    rw [ha]
    exact ih init (fun l hl => h l (List.mem_cons_of_mem a hl))

/-- With a valid pattern, the scanned field ends as the capture of the last
matching line. -/
theorem foldl_applyPat_last_match (p : Pattern)
    (m : List Char → Option (List Char)) (hp : p.compiled = some m)
    (pre : List (List Char)) (lin : List Char) (post : List (List Char))
    (c : List Char) (hm : m lin = some c) (hpost : ∀ l ∈ post, m l = none)
    (init : List Char) :
    (pre ++ lin :: post).foldl (fun acc line => applyPat p acc line) init = c := by
  rw [List.foldl_append, List.foldl_cons]
  have hstep : applyPat p
      (pre.foldl (fun acc line => applyPat p acc line) init) lin = c := by
    simp [applyPat, hp, hm]
  rw [hstep]
  exact foldl_applyPat_no_match p m hp post c hpost

/-- C7: for each of the three configured field patterns (city, district,
site name), scanning line by line, every match overwrites the field with the
match's first capture group, so the final value comes from the last matching
line (later lines override earlier ones), and a field matched by no line
stays empty. -/
theorem c7_field_scan_last_match_wins (cfg : Configuration)
    (m₁ m₂ m₃ : List Char → Option (List Char))
    (h₁ : cfg.regex_ort.compiled = some m₁)
    (h₂ : cfg.regex_ortsteil.compiled = some m₂)
    (h₃ : cfg.regex_objektname.compiled = some m₃)
    (ls : List (List Char)) :
    (((∀ l ∈ ls, m₁ l = none) → (scanFields cfg ls).1 = []) ∧
      (∀ pre lin post c, ls = pre ++ lin :: post → m₁ lin = some c →
        (∀ l ∈ post, m₁ l = none) → (scanFields cfg ls).1 = c)) ∧
    (((∀ l ∈ ls, m₂ l = none) → (scanFields cfg ls).2.1 = []) ∧
      (∀ pre lin post c, ls = pre ++ lin :: post → m₂ lin = some c →
        (∀ l ∈ post, m₂ l = none) → (scanFields cfg ls).2.1 = c)) ∧
    (((∀ l ∈ ls, m₃ l = none) → (scanFields cfg ls).2.2 = []) ∧
      (∀ pre lin post c, ls = pre ++ lin :: post → m₃ lin = some c →
        (∀ l ∈ post, m₃ l = none) → (scanFields cfg ls).2.2 = c)) := by
  unfold scanFields
  rw [scanFields_fst, scanFields_snd, scanFields_thd]
  refine ⟨⟨?_, ?_⟩, ⟨?_, ?_⟩, ⟨?_, ?_⟩⟩
  · exact fun h => foldl_applyPat_no_match _ m₁ h₁ ls [] h
  · intro pre lin post c hls hm hpost
    rw [hls]
    exact foldl_applyPat_last_match _ m₁ h₁ pre lin post c hm hpost []
  · exact fun h => foldl_applyPat_no_match _ m₂ h₂ ls [] h
  · intro pre lin post c hls hm hpost
    rw [hls]
    exact foldl_applyPat_last_match _ m₂ h₂ pre lin post c hm hpost []
  · exact fun h => foldl_applyPat_no_match _ m₃ h₃ ls [] h
  · intro pre lin post c hls hm hpost
    rw [hls]
    exact foldl_applyPat_last_match _ m₃ h₃ pre lin post c hm hpost []

/-- Witness for C7 at a concrete configuration and line list: the city field
takes the capture of the later of two matching lines, the district field takes
its single match, and the unmatched site-name field stays empty. -/
theorem c7_witness :
    c7Cfg.regex_ort.compiled = some m7ort ∧
    (scanFields c7Cfg
      ["O:A".toList, "x".toList, "O:B".toList, "T:C".toList]).1 = "B".toList ∧
    (scanFields c7Cfg
      ["O:A".toList, "x".toList, "O:B".toList, "T:C".toList]).2.1 = "C".toList ∧
    (scanFields c7Cfg
      ["O:A".toList, "x".toList, "O:B".toList, "T:C".toList]).2.2 = [] := by
  have h := c7_field_scan_last_match_wins c7Cfg m7ort m7ortsteil m7objektname
    rfl rfl rfl ["O:A".toList, "x".toList, "O:B".toList, "T:C".toList]
  refine ⟨rfl, ?_, ?_, ?_⟩
  · have := h.1.2 ["O:A".toList, "x".toList] "O:B".toList ["T:C".toList]
      ("O:B".toList.drop 2) rfl (by decide) (by decide)
    simpa using this
  · have := h.2.1.2 ["O:A".toList, "x".toList, "O:B".toList] "T:C".toList []
      ("T:C".toList.drop 2) rfl (by decide) (by decide)
    simpa using this
  · exact h.2.2.1 (by decide)

/-- `parseRecord` projections, by unfolding. -/
theorem parseRecord_ort (data : SubmitPayload) (cfg : Configuration) :
    (parseRecord data cfg).ort =
      trim (scanFields cfg
        (rustLines (data.text.filter (fun c => !decide (c = '\r'))))).1 := rfl

theorem parseRecord_ortsteil (data : SubmitPayload) (cfg : Configuration) :
    (parseRecord data cfg).ortsteil =
      trim (scanFields cfg
        (rustLines (data.text.filter (fun c => !decide (c = '\r'))))).2.1 := rfl

theorem parseRecord_objektname (data : SubmitPayload) (cfg : Configuration) :
    (parseRecord data cfg).objektname =
      trim (scanFields cfg
        (rustLines (data.text.filter (fun c => !decide (c = '\r'))))).2.2 := rfl

theorem parseRecord_einsatznrlst (data : SubmitPayload) (cfg : Configuration) :
    (parseRecord data cfg).einsatznrlst = data.foreign_id := rfl

theorem parseRecord_zusatzinfo (data : SubmitPayload) (cfg : Configuration) :
    (parseRecord data cfg).zusatzinfo = zusatzOf data.text := rfl

/-- On matchers that never hit the groupless-match case, the refined
per-line application agrees with the total abstraction `applyPat`. -/
theorem applyCaps_agrees_applyPat
    (m : List Char → Option (Option (List Char))) (acc line : List Char)
    (h : ∀ l, m l ≠ some none) :
    applyCaps m acc line =
      some (applyPat ⟨some (fun l => (m l).join)⟩ acc line) := by
  cases hm : m line with
  | none => simp [applyCaps, applyPat, hm, Option.join]
  | some o =>
    cases o with
    | none => exact absurd hm (h line)
    | some c => simp [applyCaps, applyPat, hm, Option.join]

/-- C9: counter-evidence for the totality claim — the extractor is not total
on the real program.  The configured pattern string `"Ort"` compiles to a
well-formed regex with no capture group 1; on a submission whose text has the
line `"Ort: Musterstadt"` it matches, and `parser.rs` line 32 indexes
`caps[1]`, which aborts the extractor without returning a record.  In the
refined per-line model the failing input evaluates to the abort (`none`),
while a non-matching line proceeds normally and keeps the field value. -/
theorem c9_caps_panic :
    ortNoGroupMatcher "Ort: Musterstadt".toList = some none ∧
    applyCaps ortNoGroupMatcher [] "Ort: Musterstadt".toList = none ∧
    applyCaps ortNoGroupMatcher [] "Meldung: Feuer".toList = some [] := by
  refine ⟨?_, ?_, ?_⟩ <;> decide

/-- C8: the free-text note equals the trimmed substring of the raw text
strictly between the first occurrence of `"Meldung:"` and the next following
occurrence of `"Schlagwort"`; if either marker is missing it is empty. -/
theorem c8_zusatzinfo_between_markers (data : SubmitPayload)
    (cfg : Configuration) (r : ParsedData)
    (hr : parse data cfg = Except.ok r) :
    ((∀ k, ¬ occursAt data.text MELDUNG k) → r.zusatzinfo = []) ∧
    (∀ i, occursAt data.text MELDUNG i →
      (∀ k, k < i → ¬ occursAt data.text MELDUNG k) →
      (((∀ j, ¬ occursAt (data.text.drop (i + MELDUNG.length)) SCHLAGWORT j) →
          r.zusatzinfo = []) ∧
        (∀ j, occursAt (data.text.drop (i + MELDUNG.length)) SCHLAGWORT j →
          (∀ k, k < j →
            ¬ occursAt (data.text.drop (i + MELDUNG.length)) SCHLAGWORT k) →
          r.zusatzinfo =
            trim ((data.text.drop (i + MELDUNG.length)).take j)))) := by
  have hrr : r = parseRecord data cfg := by
    simp only [parse, Except.ok.injEq] at hr
    exact hr.symm
  subst hrr
  constructor
  · intro h
    rw [parseRecord_zusatzinfo]
    simp only [zusatzOf, findSub_eq_none_of data.text MELDUNG h]
  · intro i hi hmin
    have hfs : findSub data.text MELDUNG = some i :=
      findSub_eq_some_of data.text MELDUNG i hi hmin
    constructor
    · intro h
      have hfs2 : findSub (data.text.drop (i + MELDUNG.length)) SCHLAGWORT
          = none := findSub_eq_none_of _ _ h
      rw [parseRecord_zusatzinfo]
      simp only [zusatzOf, hfs, hfs2]
    · intro j hj hjmin
      have hfs2 : findSub (data.text.drop (i + MELDUNG.length)) SCHLAGWORT
          = some j := findSub_eq_some_of _ _ j hj hjmin
      rw [parseRecord_zusatzinfo]
      simp only [zusatzOf, hfs, hfs2]

/-- Witness for C8 at the spec's example text: the note comes out as
`"Feuer im Keller"`, trimmed and marker-exclusive. -/
theorem c8_witness :
    parse c8Data (testCfg []) =
      Except.ok (parseRecord c8Data (testCfg [])) ∧
    (parseRecord c8Data (testCfg [])).zusatzinfo =
      "Feuer im Keller".toList := by
  refine ⟨rfl, ?_⟩
  have h := c8_zusatzinfo_between_markers c8Data (testCfg [])
    (parseRecord c8Data (testCfg [])) rfl
  have h2 := (h.2 3 (by decide) (by decide)).2 17 (by decide) (by decide)
  rw [h2]
  decide

/-- The free-text note is always either empty or a trimmed slice, so it has
no edge whitespace. -/
theorem noEdgeWsp_zusatzOf (t : List Char) :
    noEdgeWsp (zusatzOf t) = true := by
  cases h1 : findSub t MELDUNG with
  | none => simp only [zusatzOf, h1]; rfl
  | some start =>
    cases h2 : findSub (t.drop (start + MELDUNG.length)) SCHLAGWORT with
    | none => simp only [zusatzOf, h2, h1]; rfl
    | some rel =>
      simp only [zusatzOf, h1, h2]
      exact noEdgeWsp_trim _

/-- Counterexample to C5 as stated: the incident id field is copied verbatim
from the raw submission, so a foreign id with surrounding whitespace reaches
the returned record untrimmed. -/
theorem c5_counterexample :
    parse c5Data (testCfg []) =
      Except.ok (parseRecord c5Data (testCfg [])) ∧
    (parseRecord c5Data (testCfg [])).einsatznrlst = " 4711 ".toList ∧
    noEdgeWsp (parseRecord c5Data (testCfg [])).einsatznrlst = false :=
  ⟨rfl, rfl, by decide⟩

/-- C5 as amended: every string field of the returned record except the
incident id is whitespace-trimmed; the incident id is copied verbatim from
the raw submission; and for each of the 7 required fields that ends up empty
the corresponding non-fatal warning is emitted while the record is still
returned. -/
theorem c5_amended_fields_trimmed (data : SubmitPayload)
    (cfg : Configuration) :
    parse data cfg = Except.ok (parseRecord data cfg) ∧
    noEdgeWsp (parseRecord data cfg).einsatzstichwort = true ∧
    noEdgeWsp (parseRecord data cfg).ort = true ∧
    noEdgeWsp (parseRecord data cfg).ortsteil = true ∧
    noEdgeWsp (parseRecord data cfg).objektname = true ∧
    noEdgeWsp (parseRecord data cfg).strasse = true ∧
    noEdgeWsp (parseRecord data cfg).hausnummer = true ∧
    noEdgeWsp (parseRecord data cfg).koordinaten = true ∧
    noEdgeWsp (parseRecord data cfg).zusatzinfo = true ∧
    (parseRecord data cfg).einsatznrlst = data.foreign_id ∧
    ((parseRecord data cfg).einsatzstichwort = [] →
      "Parser: No EINSATZSTICHWORT found".toList ∈
        parseWarnings (parseRecord data cfg)) ∧
    ((parseRecord data cfg).ortsteil = [] →
      "Parser: No ORTSTEIL found".toList ∈
        parseWarnings (parseRecord data cfg)) ∧
    ((parseRecord data cfg).objektname = [] →
      "Parser: No OBJEKTNAME found".toList ∈
        parseWarnings (parseRecord data cfg)) ∧
    ((parseRecord data cfg).ort = [] →
      "Parser: No ORT found".toList ∈
        parseWarnings (parseRecord data cfg)) ∧
    ((parseRecord data cfg).einsatznrlst = [] →
      "Parser: No EINSATZNUMMERLEITSTELLE found".toList ∈
        parseWarnings (parseRecord data cfg)) ∧
    ((parseRecord data cfg).strasse = [] →
      "Parser: No STRASSE found".toList ∈
        parseWarnings (parseRecord data cfg)) ∧
    ((parseRecord data cfg).hausnummer = [] →
      "Parser: No HAUSNUMMER found".toList ∈
        parseWarnings (parseRecord data cfg)) := by
  refine ⟨rfl, noEdgeWsp_trim _, noEdgeWsp_trim _, noEdgeWsp_trim _,
    noEdgeWsp_trim _, noEdgeWsp_splitWsp_headD _, noEdgeWsp_splitWsp_getD1 _,
    noEdgeWsp_koord _ _, noEdgeWsp_zusatzOf _, rfl,
    ?_, ?_, ?_, ?_, ?_, ?_, ?_⟩
  all_goals intro h
  all_goals simp [parseWarnings, h]

/-- Counterexample to C1 as stated: with the containing rule `"Florian X 1"`
listed before the contained rule `"Florian X"`, both rules match the single
segment, the contained display text is a substring of the containing one, and
yet the contained rule still contributes its own target `0000002` — the
tie-break is not order-independent. -/
theorem c1_counterexample :
    containsSub "Florian X 1".toList "Florian X".toList = true ∧
    containsSub " Florian X 1".toList "Florian X 1".toList = true ∧
    containsSub " Florian X 1".toList "Florian X".toList = true ∧
    parse c1Data c1Cfg = Except.ok (parseRecord c1Data c1Cfg) ∧
    (parseRecord c1Data c1Cfg).rics =
      [⟨"Florian X 1".toList, "0000001".toList, "A".toList⟩,
       ⟨"Florian X".toList, "0000002".toList, "A".toList⟩,
       kdow_dummy_ric] :=
  ⟨by decide, by decide, by decide, rfl, by decide⟩

/-- C1 as amended: within one segment, a matched rule whose display text is
contained in another matched rule's display text contributes no target of its
own exactly when the containing rule appears later in the rule table (the
later rule's retain pass removes it); when the contained rule appears later,
both targets are appended. -/
theorem c1_amended_containment_tie_break (s l : Ric) (token : List Char)
    (hs : containsSub token s.text = true)
    (hl : containsSub token l.text = true)
    (hcont : containsSub l.text s.text = true) :
    matchToken [s, l] token = [matchedRic l] ∧
    (containsSub s.text l.text = false →
      matchToken [l, s] token = [matchedRic l, matchedRic s]) := by
  constructor
  · unfold matchToken
    rw [List.foldl_cons, List.foldl_cons, List.foldl_nil, if_pos hs, if_pos hl]
    simp [matchedRic, hcont]
  · intro hnc
    unfold matchToken
    rw [List.foldl_cons, List.foldl_cons, List.foldl_nil, if_pos hl, if_pos hs]
    simp [matchedRic, hnc]

/-- Witness for the amended C1 at the two concrete rules of the
counterexample, in both table orders. -/
theorem c1_witness :
    matchToken [⟨"Florian X".toList, "2".toList, "A".toList⟩,
                ⟨"Florian X 1".toList, "1".toList, "A".toList⟩]
        " Florian X 1".toList =
      [matchedRic ⟨"Florian X 1".toList, "1".toList, "A".toList⟩] ∧
    matchToken [⟨"Florian X 1".toList, "1".toList, "A".toList⟩,
                ⟨"Florian X".toList, "2".toList, "A".toList⟩]
        " Florian X 1".toList =
      [matchedRic ⟨"Florian X 1".toList, "1".toList, "A".toList⟩,
       matchedRic ⟨"Florian X".toList, "2".toList, "A".toList⟩] := by
  have h := c1_amended_containment_tie_break
    ⟨"Florian X".toList, "2".toList, "A".toList⟩
    ⟨"Florian X 1".toList, "1".toList, "A".toList⟩
    " Florian X 1".toList (by decide) (by decide) (by decide)
  exact ⟨h.1, h.2 (by decide)⟩

/-- C6: the spec's example — text containing
`"Einsatzmittel: UW 1/1, Florian Musterstadt 1"` with a configured rule for
`"Florian Musterstadt 1"` (code `123`) yields exactly three distinct targets:
the rule's target with the code zero-padded to 7 digits, the command-vehicle
fallback, and the UW-1 group fallback. -/
theorem c6_three_distinct_targets :
    parse c6Data c6Cfg = Except.ok (parseRecord c6Data c6Cfg) ∧
    (parseRecord c6Data c6Cfg).rics =
      [⟨"Florian Musterstadt 1".toList, "0000123".toList, "A".toList⟩,
       kdow_dummy_ric, abt1_dummy_ric] ∧
    (parseRecord c6Data c6Cfg).rics.Nodup :=
  ⟨rfl, by decide, by decide⟩

/-- A nonempty pattern never occurs in the empty haystack. -/
theorem containsSub_nil (pat : List Char) (h : pat ≠ []) :
    containsSub [] pat = false := by
  obtain ⟨c, t, rfl⟩ := List.exists_cons_of_ne_nil h
  rfl

/-- No rule with a nonempty display text matches the empty token. -/
theorem matchToken_empty_token (rules : List Ric)
    (h : ∀ r ∈ rules, r.text ≠ []) : matchToken rules [] = [] := by
  unfold matchToken
  suffices H : ∀ (rs : List Ric), (∀ r ∈ rs, r.text ≠ []) → ∀ acc : List Ric,
      rs.foldl (fun temp ric =>
        if containsSub [] ric.text then
          (temp.filter (fun x => !containsSub ric.text x.text)) ++
            [matchedRic ric]
        else temp) acc = acc by
    exact H rules h []
  intro rs
  induction rs with
  | nil => intro _ acc; rfl
  | cons r t ih =>
    intro hr acc
    rw [List.foldl_cons]
    have hc : containsSub [] r.text = false :=
      containsSub_nil r.text (hr r (List.mem_cons_self r t))
    rw [if_neg (by simp [hc])]
    exact ih (fun x hx => hr x (List.mem_cons_of_mem r hx)) acc

/-- The empty token triggers none of the four UW group fallbacks. -/
theorem uwStep_empty_token (acc : List Ric) : uwStep acc [] = acc := by
  have h1 : containsSub [] ['U', 'W', ' ', '1', '/'] = false := by decide
  have h2 : containsSub [] ['U', 'W', ' ', '2', '/'] = false := by decide
  have h3 : containsSub [] ['U', 'W', ' ', '3', '/'] = false := by decide
  have h4 : containsSub [] ['U', 'W', ' ', '4', '/'] = false := by decide
  simp [uwStep, h1, h2, h3, h4]

/-- `parseRecord` target-list projection, by unfolding. -/
theorem parseRecord_rics (data : SubmitPayload) (cfg : Configuration) :
    (parseRecord data cfg).rics =
      (let body := data.text.filter (fun c => !decide (c = '\r'))
       let rics_source :=
         match findSub body EINSATZMITTEL with
         | some start => body.drop (start + EINSATZMITTEL.length)
         | none => []
       let tokens := splitChar ',' rics_source
       tokens.foldl uwStep
         (tokens.foldl (fun acc token => acc ++ matchToken cfg.rics token) []
           ++ [kdow_dummy_ric])) := rfl

/-- C10 as amended: when the carriage-return-stripped text does not contain
the marker `"Einsatzmittel:"` and every configured display text is nonempty,
the returned target list is exactly the single command-vehicle fallback. -/
theorem c10_amended_no_marker_only_kdow (data : SubmitPayload)
    (cfg : Configuration)
    (hm : containsSub (data.text.filter (fun c => !decide (c = '\r')))
        EINSATZMITTEL = false)
    (hr : ∀ r ∈ cfg.rics, r.text ≠ []) :
    (parseRecord data cfg).rics = [kdow_dummy_ric] := by
  have hfs : findSub (data.text.filter (fun c => !decide (c = '\r')))
      EINSATZMITTEL = none := by
    cases h : findSub (data.text.filter (fun c => !decide (c = '\r')))
        EINSATZMITTEL with
    | none => rfl
    | some v => rw [containsSub, h] at hm; cases hm
  rw [parseRecord_rics]
  simp only [hfs]
  have hsc : splitChar ',' ([] : List Char) = [[]] := rfl
  rw [hsc, List.foldl_cons, List.foldl_nil, List.foldl_cons, List.foldl_nil,
    matchToken_empty_token cfg.rics hr, uwStep_empty_token]
  rfl

/-- Witness for the amended C10: a text without the marker, with a nonempty
configured rule, yields only the command-vehicle fallback target. -/
theorem c10_witness :
    containsSub (w10Data.text.filter (fun c => !decide (c = '\r')))
      EINSATZMITTEL = false ∧
    (parseRecord w10Data w10Cfg).rics = [kdow_dummy_ric] :=
  ⟨by decide,
   c10_amended_no_marker_only_kdow w10Data w10Cfg (by decide) (by decide)⟩

/-- Counterexample to C10 as stated: a text containing `"Einsatz\rmittel:"`
does not contain the marker, yet after the code strips carriage returns the
marker appears, so the returned target list also picks up the UW-1 fallback
and is not the single command-vehicle target. -/
theorem c10_counterexample :
    containsSub c10Data.text EINSATZMITTEL = false ∧
    (∀ r ∈ (testCfg []).rics, r.text ≠ []) ∧
    parse c10Data (testCfg []) =
      Except.ok (parseRecord c10Data (testCfg [])) ∧
    (parseRecord c10Data (testCfg [])).rics =
      [kdow_dummy_ric, abt1_dummy_ric] ∧
    (parseRecord c10Data (testCfg [])).rics ≠ [kdow_dummy_ric] :=
  ⟨by decide, by decide, rfl, by decide, by decide⟩

/-- The key set only grows along the per-record dedup fold. -/
theorem dedup_foldl_subset (nr : List Char) :
    ∀ (l : List Ric) (acc : List DedupKey × List Ric),
      acc.1 ⊆ (l.foldl (dedupStep nr) acc).1 := by
  intro l
  induction l with
  | nil => intro acc; exact fun k hk => hk
  | cons r t ih =>
    intro acc
    rw [List.foldl_cons]
    refine List.Subset.trans ?_ (ih (dedupStep nr acc r))
    unfold dedupStep
    by_cases hk : (nr, r.ric) ∈ acc.1
    · rw [if_pos hk]
      exact fun k hkm => hkm
    · rw [if_neg hk]
      exact fun k hkm => List.mem_cons_of_mem _ hkm

/-- A target emitted by the dedup fold had an unregistered key at the start
of the fold. -/
theorem dedup_foldl_emitted_new (nr : List Char) :
    ∀ (l : List Ric) (acc : List DedupKey × List Ric) (x : Ric),
      x ∈ (l.foldl (dedupStep nr) acc).2 →
      x ∈ acc.2 ∨ (nr, x.ric) ∉ acc.1 := by
  intro l
  induction l with
  | nil => intro acc x hx; exact Or.inl hx
  | cons r t ih =>
    intro acc x hx
    rw [List.foldl_cons] at hx
    rcases ih (dedupStep nr acc r) x hx with h1 | h2
    · unfold dedupStep at h1
      by_cases hk : (nr, r.ric) ∈ acc.1
      · rw [if_pos hk] at h1
        exact Or.inl h1
      · rw [if_neg hk] at h1
        rcases List.mem_append.mp h1 with ha | hb
        · exact Or.inl ha
        · have hxr : x = r := by simpa using hb
          subst hxr
          exact Or.inr hk
    · right
      intro hmem
      apply h2
      unfold dedupStep
      by_cases hk : (nr, r.ric) ∈ acc.1
      · rw [if_pos hk]; exact hmem
      · rw [if_neg hk]; exact List.mem_cons_of_mem _ hmem

/-- A target emitted by the dedup fold has its key registered at the end of
the fold. -/
theorem dedup_foldl_emitted_registered (nr : List Char) :
    ∀ (l : List Ric) (acc : List DedupKey × List Ric),
      (∀ y ∈ acc.2, (nr, y.ric) ∈ acc.1) →
      ∀ x ∈ (l.foldl (dedupStep nr) acc).2,
        (nr, x.ric) ∈ (l.foldl (dedupStep nr) acc).1 := by
  intro l
  induction l with
  | nil => intro acc hinv x hx; exact hinv x hx
  | cons r t ih =>
    intro acc hinv x hx
    rw [List.foldl_cons] at hx ⊢
    refine ih (dedupStep nr acc r) ?_ x hx
    intro y hy
    unfold dedupStep at hy ⊢
    by_cases hk : (nr, r.ric) ∈ acc.1
    · rw [if_pos hk] at hy ⊢
      exact hinv y hy
    · rw [if_neg hk] at hy ⊢
      rcases List.mem_append.mp hy with ha | hb
      · exact List.mem_cons_of_mem _ (hinv y ha)
      · have hyr : y = r := by simpa using hb
        subst hyr
        exact List.mem_cons_self _ _

/-- When every key is already registered, the dedup fold is the identity. -/
theorem dedup_foldl_all_known (nr : List Char) :
    ∀ (l : List Ric) (acc : List DedupKey × List Ric),
      (∀ r ∈ l, (nr, r.ric) ∈ acc.1) → l.foldl (dedupStep nr) acc = acc := by
  intro l
  induction l with
  | nil => intro acc _; rfl
  | cons r t ih =>
    intro acc h
    rw [List.foldl_cons]
    have hstep : dedupStep nr acc r = acc := by
      unfold dedupStep
      rw [if_pos (h r (List.mem_cons_self r t))]
    rw [hstep]
    exact ih acc (fun x hx => h x (List.mem_cons_of_mem r hx))

/-- The key-set component of one dedup-loop iteration is the fold's key set. -/
theorem processRecord_fst (known : List DedupKey) (d : ParsedData) :
    (processRecord known d).1 =
      (d.rics.foldl (dedupStep d.einsatznrlst) (known, [])).1 := by
  simp only [processRecord]
  split <;> rfl

/-- A positive `hasKey` outcome of one dedup-loop iteration exposes an
emitted target with the matching key. -/
theorem hasKey_processRecord_true (i t : List Char) (known : List DedupKey)
    (d : ParsedData)
    (h : hasKey i t ((processRecord known d).2.1, (processRecord known d).2.2)
      = true) :
    d.einsatznrlst = i ∧
    ∃ x ∈ (d.rics.foldl (dedupStep d.einsatznrlst) (known, [])).2,
      x.ric = t := by
  unfold processRecord at h
  by_cases he : (d.rics.foldl (dedupStep d.einsatznrlst) (known, [])).2 = []
  · rw [if_pos he] at h
    simp [hasKey] at h
  · rw [if_neg he] at h
    simp only [hasKey, Bool.and_eq_true, decide_eq_true_eq,
      List.any_eq_true] at h
    exact ⟨h.1, h.2⟩

/-- C2 helper: a submitted record within one iteration implies the key was
new and is registered afterwards. -/
theorem hasKey_processRecord_facts (i t : List Char) (known : List DedupKey)
    (d : ParsedData)
    (h : hasKey i t ((processRecord known d).2.1, (processRecord known d).2.2)
      = true) :
    (i, t) ∉ known ∧ (i, t) ∈ (processRecord known d).1 := by
  obtain ⟨heq, x, hx, hxt⟩ := hasKey_processRecord_true i t known d h
  have hkey : (d.einsatznrlst, x.ric) = (i, t) := by rw [heq, hxt]
  constructor
  · rcases dedup_foldl_emitted_new d.einsatznrlst d.rics (known, []) x hx with
      h1 | h2
    · cases h1
    · rw [← hkey]; exact h2
  · rw [processRecord_fst, ← hkey]
    exact dedup_foldl_emitted_registered d.einsatznrlst d.rics (known, [])
      (fun y hy => absurd hy (List.not_mem_nil y)) x hx

/-- The key set grows across the whole dedup loop. -/
theorem processAll_known_subset :
    ∀ (recs : List ParsedData) (known : List DedupKey),
      known ⊆ (processAll known recs).1 := by
  intro recs
  induction recs with
  | nil => intro known; exact fun k hk => hk
  | cons d rest ih =>
    intro known
    simp only [processAll]
    refine List.Subset.trans ?_ (ih (processRecord known d).1)
    rw [processRecord_fst]
    exact dedup_foldl_subset d.einsatznrlst d.rics (known, [])

/-- Counting lemma: once a key is known no later submission carries it, and
any key is carried by at most one submission. -/
theorem processAll_countP (i t : List Char) :
    ∀ (recs : List ParsedData) (known : List DedupKey),
      ((i, t) ∈ known →
        (processAll known recs).2.countP (hasKey i t) = 0) ∧
      (processAll known recs).2.countP (hasKey i t) ≤ 1 := by
  intro recs
  induction recs with
  | nil =>
    intro known
    refine ⟨fun _ => rfl, ?_⟩
    have he : (processAll known []).2 = [] := rfl
    rw [he, List.countP_nil]
    exact Nat.zero_le 1
  | cons d rest ih =>
    intro known
    have hcons : (processAll known (d :: rest)).2 =
        ((processRecord known d).2.1, (processRecord known d).2.2) ::
          (processAll (processRecord known d).1 rest).2 := by
      simp only [processAll]
    constructor
    · intro hk
      have hno : hasKey i t
          ((processRecord known d).2.1, (processRecord known d).2.2)
          = false := by
        by_cases hh : hasKey i t
            ((processRecord known d).2.1, (processRecord known d).2.2) = true
        · exact absurd hk (hasKey_processRecord_facts i t known d hh).1
        · simpa using hh
      have hrest : (processAll (processRecord known d).1 rest).2.countP
          (hasKey i t) = 0 := by
        refine (ih (processRecord known d).1).1 ?_
        rw [processRecord_fst]
        exact dedup_foldl_subset d.einsatznrlst d.rics (known, []) hk
      rw [hcons, List.countP_cons, hno, hrest]
      simp
    · by_cases hh : hasKey i t
          ((processRecord known d).2.1, (processRecord known d).2.2) = true
      · have hreg := (hasKey_processRecord_facts i t known d hh).2
        have hrest : (processAll (processRecord known d).1 rest).2.countP
            (hasKey i t) = 0 := (ih (processRecord known d).1).1 hreg
        rw [hcons, List.countP_cons, hh, hrest]
        simp
      · have hno : hasKey i t
            ((processRecord known d).2.1, (processRecord known d).2.2)
            = false := by simpa using hh
        rw [hcons, List.countP_cons, hno]
        simpa using (ih (processRecord known d).1).2

/-- C2: across any sequence of records processed by the dedup loop, a
(incident id, target code) key is handed to the Submitter at most once; the
registered key set only grows; and a record all of whose targets are already
registered produces no submission, only a warning. -/
theorem c2_dedup_at_most_once :
    (∀ (known : List DedupKey) (d : ParsedData),
      known ⊆ (processRecord known d).1) ∧
    (∀ (recs : List ParsedData) (known : List DedupKey),
      known ⊆ (processAll known recs).1) ∧
    (∀ (recs : List ParsedData) (i t : List Char),
      (processAll [] recs).2.countP (hasKey i t) ≤ 1) ∧
    (∀ (known : List DedupKey) (d : ParsedData),
      (∀ r ∈ d.rics, (d.einsatznrlst, r.ric) ∈ known) →
      processRecord known d = (known, none, true)) := by
  refine ⟨?_, processAll_known_subset, ?_, ?_⟩
  · intro known d
    rw [processRecord_fst]
    exact dedup_foldl_subset d.einsatznrlst d.rics (known, [])
  · intro recs i t
    exact (processAll_countP i t recs []).2
  · intro known d h
    unfold processRecord
    rw [dedup_foldl_all_known d.einsatznrlst d.rics (known, []) h]
    rfl

/-- Witness for C2: submitting the same single-target record twice hands the
key to the Submitter at most once, and a fully registered record yields the
no-submission warning outcome. -/
theorem c2_witness :
    (processAll [] [w2Data, w2Data]).2.countP
      (hasKey "E1".toList "0999995".toList) ≤ 1 ∧
    processRecord [("E1".toList, "0999995".toList)] w2Data =
      ([("E1".toList, "0999995".toList)], none, true) :=
  ⟨c2_dedup_at_most_once.2.2.1 [w2Data, w2Data] "E1".toList "0999995".toList,
   c2_dedup_at_most_once.2.2.2 [("E1".toList, "0999995".toList)] w2Data
     (by decide)⟩

/-- Looking up a site right after storing its token finds that token with the
store instant. -/
theorem cacheLookup_store (cache : TokenCache) (standort t : List Char)
    (now : Nat) :
    cacheLookup ((standort, t, now) :: cache) standort = some (t, now) := by
  unfold cacheLookup
  rw [List.find?_cons_of_pos _ (by simp)]
  rfl

/-- C3: `get_api_token` returns the cached token unchanged while its age is
strictly under 30 minutes, falls through to a fresh fetch (storing the new
token with the current instant) when the entry is absent or 30 minutes old or
older, and every token it hands out carries a fetch instant less than
30 minutes old, checked at read time. -/
theorem c3_token_cache (cache : TokenCache) (now : Nat) (standort : List Char)
    (fetched : Option (List Char)) :
    (∀ tok ts, cacheLookup cache standort = some (tok, ts) →
      now - ts < TOKEN_TTL →
      get_api_token cache now standort fetched = (some tok, cache)) ∧
    (cacheLookup cache standort = none →
      get_api_token cache now standort fetched =
        fetchStore cache now standort fetched) ∧
    (∀ tok ts, cacheLookup cache standort = some (tok, ts) →
      TOKEN_TTL ≤ now - ts →
      get_api_token cache now standort fetched =
        fetchStore cache now standort fetched) ∧
    (∀ t, fetched = some t →
      fetchStore cache now standort fetched =
        (some t, (standort, t, now) :: cache)) ∧
    (fetched = none →
      fetchStore cache now standort fetched = (none, cache)) ∧
    (∀ t, (get_api_token cache now standort fetched).1 = some t →
      ∃ ts, cacheLookup (get_api_token cache now standort fetched).2 standort
          = some (t, ts) ∧ now - ts < TOKEN_TTL) := by
  refine ⟨?_, ?_, ?_, ?_, ?_, ?_⟩
  · intro tok ts h hlt
    unfold get_api_token
    rw [h]
    dsimp only
    rw [if_pos hlt]
  · intro h
    unfold get_api_token
    rw [h]
  · intro tok ts h hge
    unfold get_api_token
    rw [h]
    dsimp only
    rw [if_neg (Nat.not_lt.mpr hge)]
  · intro t h
    unfold fetchStore
    rw [h]
  · intro h
    unfold fetchStore
    rw [h]
  · intro t h
    unfold get_api_token at h ⊢
    cases hl : cacheLookup cache standort with
    | some e =>
      obtain ⟨tok, ts⟩ := e
      rw [hl] at h
      dsimp only at h ⊢
      by_cases hlt : now - ts < TOKEN_TTL
      · rw [if_pos hlt] at h ⊢
        simp only [Option.some.injEq] at h
        subst h
        exact ⟨ts, hl, hlt⟩
      · rw [if_neg hlt] at h ⊢
        cases hf : fetched with
        | none =>
          have hfs0 : fetchStore cache now standort none = (none, cache) := rfl
          rw [hf, hfs0] at h
          cases h
        | some t2 =>
          have hfs2 : fetchStore cache now standort (some t2) =
              (some t2, (standort, t2, now) :: cache) := rfl
          rw [hf, hfs2] at h
          rw [hfs2]
          simp only [Option.some.injEq] at h
          subst h
          refine ⟨now, cacheLookup_store cache standort _ now, ?_⟩
          rw [Nat.sub_self]
          decide
    | none =>
      rw [hl] at h
      dsimp only at h ⊢
      cases hf : fetched with
      | none =>
        have hfs0 : fetchStore cache now standort none = (none, cache) := rfl
        rw [hf, hfs0] at h
        cases h
      | some t2 =>
        have hfs2 : fetchStore cache now standort (some t2) =
            (some t2, (standort, t2, now) :: cache) := rfl
        rw [hf, hfs2] at h
        rw [hfs2]
        simp only [Option.some.injEq] at h
        subst h
        refine ⟨now, cacheLookup_store cache standort _ now, ?_⟩
        rw [Nat.sub_self]
        decide

/-- Witness for C3: a token stored at instant 100 is returned unchanged at
instant 1840 (age 29 minutes) and replaced by a fresh fetch at instant 1900
(age 30 minutes), which is stored with the current instant. -/
theorem c3_witness :
    get_api_token [("A".toList, "tok1".toList, 100)] 1840 "A".toList
        (some "tok2".toList) =
      (some "tok1".toList, [("A".toList, "tok1".toList, 100)]) ∧
    get_api_token [("A".toList, "tok1".toList, 100)] 1900 "A".toList
        (some "tok2".toList) =
      (some "tok2".toList,
       [("A".toList, "tok2".toList, 1900), ("A".toList, "tok1".toList, 100)]) := by
  have h1 := (c3_token_cache [("A".toList, "tok1".toList, 100)] 1840
    "A".toList (some "tok2".toList)).1 "tok1".toList 100 (by decide) (by decide)
  have h := c3_token_cache [("A".toList, "tok1".toList, 100)] 1900
    "A".toList (some "tok2".toList)
  have h2 := h.2.2.1 "tok1".toList 100 (by decide) (by decide)
  have h3 := h.2.2.2.1 "tok2".toList rfl
  exact ⟨h1, h2.trans h3⟩

/-- C4: the `/submit` endpoint answers 401 on token mismatch without looking
at the body, 200 `submitted` for any successfully deserialized body with no
semantic validation, and 400 with the parse error message and the example
payload on malformed JSON. -/
theorem c4_submit_endpoint (secret token body : List Char)
    (fromSlice : List Char → Except (List Char) SubmitPayload) :
    (¬ token = secret →
      ∀ (body' : List Char)
        (f' : List Char → Except (List Char) SubmitPayload),
        webSubmit secret token body' f' =
          ⟨401, RespBody.errorUnauthorized⟩) ∧
    (token = secret → ∀ d, fromSlice body = Except.ok d →
      webSubmit secret token body fromSlice =
        ⟨200, RespBody.statusSubmitted⟩) ∧
    (token = secret → ∀ e, fromSlice body = Except.error e →
      webSubmit secret token body fromSlice =
        ⟨400, RespBody.parseError ("JSON parse error: ".toList ++ e)
          submitExample⟩) := by
  refine ⟨?_, ?_, ?_⟩
  · intro hne body' f'
    unfold webSubmit
    rw [if_pos hne]
  · intro heq d hok
    unfold webSubmit
    rw [if_neg (fun h => h heq), hok]
  · intro heq e herr
    unfold webSubmit
    rw [if_neg (fun h => h heq), herr]

/-- Witness for C4 at concrete tokens and bodies: 401 on mismatch even for a
well-formed body, 200 on a parsed body, 400 with message and example payload
on a malformed body. -/
theorem c4_witness :
    webSubmit "s".toList "x".toList "good".toList f4 =
      ⟨401, RespBody.errorUnauthorized⟩ ∧
    webSubmit "s".toList "s".toList "good".toList f4 =
      ⟨200, RespBody.statusSubmitted⟩ ∧
    webSubmit "s".toList "s".toList "oops".toList f4 =
      ⟨400, RespBody.parseError ("JSON parse error: ".toList ++ "bad".toList)
        submitExample⟩ := by
  have h1 := (c4_submit_endpoint "s".toList "x".toList "good".toList f4).1
    (by decide) "good".toList f4
  have h2 := (c4_submit_endpoint "s".toList "s".toList "good".toList f4).2.1
    rfl emptyPayload (by rfl)
  have h3 := (c4_submit_endpoint "s".toList "s".toList "oops".toList f4).2.2
    rfl "bad".toList (by rfl)
  exact ⟨h1, h2, h3⟩

/-- Witness for the amended C5 at a concrete empty payload: the coordinates
field is edge-trimmed and the empty city field yields its warning while the
record is still produced. -/
theorem c5_witness :
    noEdgeWsp (parseRecord emptyPayload (testCfg [])).koordinaten = true ∧
    "Parser: No ORT found".toList ∈
      parseWarnings (parseRecord emptyPayload (testCfg [])) := by
  obtain ⟨h1, h2, h3, h4, h5, h6, h7, h8, h9, h10, h11, h12, h13, h14,
    h15, h16, h17⟩ := c5_amended_fields_trimmed emptyPayload (testCfg [])
  exact ⟨h8, h14 (by decide)⟩
